import Mathlib

/-!
Verification development for the AID_Genesis repository.

The repository consists of a Next.js wizard UI (`ProjectWizard` with local
`currentStep` state and `handleNext`/`handlePrevious` navigation), a zustand
project store (`useProjectStore` with `updateProject`, `markStepCompleted`,
and a `persist` configuration whose projection keeps `project` and
`completedSteps`), and narrative documentation describing an orchestration
engine (session state machine, validation consensus engine, mode
determination, cross-project pattern store) that has no implementation in
the source tree.  The UI and store are embedded directly from the source;
the orchestration engine is modelled from the specification text, as noted
in the doc comments of the corresponding definitions.
-/

namespace AidGenesis

/-! ## Wizard navigation (src ProjectWizard, `handleNext` / `handlePrevious`)

`wizardSteps` has five entries (basic, tech, features, design, performance),
so `wizardSteps.length - 1 = 4`.  The component keeps `currentStep` in React
state, starting at 0, and the only writers are `handleNext` and
`handlePrevious`.  Steps are modelled as integers, matching JavaScript
numbers on this range. -/

/-- The length of the `wizardSteps` array in the source: five steps. -/
def wizardStepsLength : Int := 5

/-- `handleNext`: advance only when `currentStep < wizardSteps.length - 1`. -/
def handleNext (currentStep : Int) : Int :=
  if currentStep < wizardStepsLength - 1 then currentStep + 1 else currentStep

/-- `handlePrevious`: go back only when `currentStep > 0`. -/
def handlePrevious (currentStep : Int) : Int :=
  if 0 < currentStep then currentStep - 1 else currentStep

/-- The operations of the wizard that run while the component is mounted:
the two navigation handlers and `onSubmit`, which updates the store but
never touches `currentStep`. -/
inductive WizardOp
  | next
  | prev
  | submit
deriving DecidableEq

/-- Apply one wizard operation to the current step. -/
def applyOp : WizardOp → Int → Int
  | WizardOp.next, s => handleNext s
  | WizardOp.prev, s => handlePrevious s
  | WizardOp.submit, s => s

/-- Apply a sequence of wizard operations, first element first. -/
def applyOps (ops : List WizardOp) (s : Int) : Int :=
  ops.foldl (fun t op => applyOp op t) s

/-! ## The project store (src `useProjectStore`)

The zustand store holds a `project` record, a `completedSteps` string list,
and UI bookkeeping fields.  JSON-representable values (the `any`-typed
preference records) are modelled by an explicit JSON value type. -/

/-- A JSON value, as produced and consumed by the zustand `persist`
middleware's JSON storage. -/
inductive Json
  | str : String → Json
  | num : Rat → Json
  | bool : Bool → Json
  | arr : List Json → Json
  | obj : List (String × Json) → Json


/-- A generated project file (`ProjectFile` in the source). -/
structure ProjectFile where
  name : String
  path : String
  content : String
  language : String


/-- The `project` record of the store state. -/
structure Project where
  name : String
  description : String
  projectType : String
  techStack : List (String × String)
  features : List String
  customFeatures : List String
  customRequirements : String
  designPreferences : List (String × Json)
  performanceSettings : List (String × Json)
  files : List ProjectFile


/-- The full store state (`ProjectState` in the source). -/
structure ProjectState where
  project : Project
  currentStep : Int
  completedSteps : List String
  isGenerating : Bool
  generationProgress : Int


/-- `initialProject` from the source: every field empty, type `web-app`. -/
def initialProject : Project :=
  { name := ""
    description := ""
    projectType := "web-app"
    techStack := []
    features := []
    customFeatures := []
    customRequirements := ""
    designPreferences := []
    performanceSettings := []
    files := [] }

/-- The initial store state. -/
def initialState : ProjectState :=
  { project := initialProject
    currentStep := 0
    completedSteps := []
    isGenerating := false
    generationProgress := 0 }

/-- A `Partial<ProjectState['project']>` update object: each field is
present (`some`) or absent (`none`). -/
structure ProjectUpdate where
  name : Option String := none
  description : Option String := none
  projectType : Option String := none
  techStack : Option (List (String × String)) := none
  features : Option (List String) := none
  customFeatures : Option (List String) := none
  customRequirements : Option String := none
  designPreferences : Option (List (String × Json)) := none
  performanceSettings : Option (List (String × Json)) := none
  files : Option (List ProjectFile) := none

/-- The object spread `{ ...state.project, ...updates }`: a field named in
the update takes the update's value, every other field keeps its value. -/
def spreadProject (p : Project) (u : ProjectUpdate) : Project :=
  { name := u.name.getD p.name
    description := u.description.getD p.description
    projectType := u.projectType.getD p.projectType
    techStack := u.techStack.getD p.techStack
    features := u.features.getD p.features
    customFeatures := u.customFeatures.getD p.customFeatures
    customRequirements := u.customRequirements.getD p.customRequirements
    designPreferences := u.designPreferences.getD p.designPreferences
    performanceSettings := u.performanceSettings.getD p.performanceSettings
    files := u.files.getD p.files }

/-- `updateProject` from the source: `set` with only the `project` key, so
the other state fields are carried over unchanged by zustand's shallow
merge. -/
def updateProject (u : ProjectUpdate) (s : ProjectState) : ProjectState :=
  { s with project := spreadProject s.project u }

/-- `markStepCompleted` from the source: append the step name unless the
list already includes it. -/
def markStepCompleted (s : ProjectState) (step : String) : ProjectState :=
  { s with
    completedSteps :=
      if step ∈ s.completedSteps then s.completedSteps
      else s.completedSteps ++ [step] }

/-! ## Persistence (src `persist` configuration of the store)

The `persist` middleware serializes a projection of the state (the
projection keeps exactly `project` and `completedSteps`) through JSON
storage and, on rehydration, merges the decoded projection into the
initial state.  Serialization is modelled structurally: encoding builds
the JSON value that `JSON.stringify` would render, decoding inverts it. -/

/-- The persisted projection of the store state: the `persist`
configuration keeps only `project` and `completedSteps`. -/
structure PersistedState where
  project : Project
  completedSteps : List String

/-- The projection function of the `persist` configuration (named
keep-fields function in the source): keep `project` and `completedSteps`,
drop the UI fields. -/
def toPersisted (s : ProjectState) : PersistedState :=
  { project := s.project, completedSteps := s.completedSteps }

/-- Encode a string list as a JSON array of strings. -/
def encodeStrList (l : List String) : Json :=
  Json.arr (l.map Json.str)

/-- Decode a JSON array of strings. -/
def decodeStrList : Json → Option (List String)
  | Json.arr items =>
    items.foldr
      (fun j acc =>
        match j, acc with
        | Json.str v, some l => some (v :: l)
        | _, _ => none)
      (some [])
  | _ => none

/-- Encode a string-to-string record as a JSON object. -/
def encodeStrMap (l : List (String × String)) : Json :=
  Json.obj (l.map (fun kv => (kv.1, Json.str kv.2)))

/-- Decode a JSON object whose values are all strings. -/
def decodeStrMap : Json → Option (List (String × String))
  | Json.obj kvs =>
    kvs.foldr
      (fun kv acc =>
        match kv, acc with
        | (k, Json.str v), some l => some ((k, v) :: l)
        | _, _ => none)
      (some [])
  | _ => none

/-- Decode a JSON object into its key/value entries (values kept as JSON,
matching the `Record<string, any>` fields). -/
def decodeJsonMap : Json → Option (List (String × Json))
  | Json.obj kvs => some kvs
  | _ => none

/-- Encode one project file. -/
def encodeFile (f : ProjectFile) : Json :=
  Json.obj
    [("name", Json.str f.name), ("path", Json.str f.path),
     ("content", Json.str f.content), ("language", Json.str f.language)]

/-- Decode one project file. -/
def decodeFile : Json → Option ProjectFile
  | Json.obj
      [("name", Json.str n), ("path", Json.str p),
       ("content", Json.str c), ("language", Json.str l)] =>
    some { name := n, path := p, content := c, language := l }
  | _ => none

/-- Encode the file list. -/
def encodeFiles (fs : List ProjectFile) : Json :=
  Json.arr (fs.map encodeFile)

/-- Decode the file list. -/
def decodeFiles : Json → Option (List ProjectFile)
  | Json.arr items =>
    items.foldr
      (fun j acc =>
        match decodeFile j, acc with
        | some f, some l => some (f :: l)
        | _, _ => none)
      (some [])
  | _ => none

/-- Encode the `project` record in the field order of the source. -/
def encodeProject (p : Project) : Json :=
  Json.obj
    [("name", Json.str p.name),
     ("description", Json.str p.description),
     ("projectType", Json.str p.projectType),
     ("techStack", encodeStrMap p.techStack),
     ("features", encodeStrList p.features),
     ("customFeatures", encodeStrList p.customFeatures),
     ("customRequirements", Json.str p.customRequirements),
     ("designPreferences", Json.obj p.designPreferences),
     ("performanceSettings", Json.obj p.performanceSettings),
     ("files", encodeFiles p.files)]

/-- Decode the `project` record. -/
def decodeProject : Json → Option Project
  | Json.obj
      [("name", Json.str n),
       ("description", Json.str d),
       ("projectType", Json.str pt),
       ("techStack", ts),
       ("features", fs),
       ("customFeatures", cf),
       ("customRequirements", Json.str cr),
       ("designPreferences", dp),
       ("performanceSettings", ps),
       ("files", fl)] =>
    match decodeStrMap ts, decodeStrList fs, decodeStrList cf,
        decodeJsonMap dp, decodeJsonMap ps, decodeFiles fl with
    | some ts', some fs', some cf', some dp', some ps', some fl' =>
      some
        { name := n, description := d, projectType := pt,
          techStack := ts', features := fs', customFeatures := cf',
          customRequirements := cr, designPreferences := dp',
          performanceSettings := ps', files := fl' }
    | _, _, _, _, _, _ => none
  | _ => none

/-- Encode the persisted projection. -/
def encodePersisted (p : PersistedState) : Json :=
  Json.obj
    [("project", encodeProject p.project),
     ("completedSteps", encodeStrList p.completedSteps)]

/-- Decode the persisted projection. -/
def decodePersisted : Json → Option PersistedState
  | Json.obj [("project", pj), ("completedSteps", cs)] =>
    match decodeProject pj, decodeStrList cs with
    | some p, some l => some { project := p, completedSteps := l }
    | _, _ => none
  | _ => none

/-- Rehydration: zustand merges the decoded projection into the initial
state (`{ ...initialState, ...persisted }`). -/
def restoreState (p : PersistedState) : ProjectState :=
  { initialState with project := p.project, completedSteps := p.completedSteps }

/-- The memory projection of a store state: the persisted fields. -/
def memoryProjection (s : ProjectState) : Project × List String :=
  (s.project, s.completedSteps)

/-! ## Mode Determination Engine (spec §4.3)

The repository contains no implementation of the orchestration engine; only
the specification and the narrative documentation describe it, so the
definitions below are modelled from the specification text. -/

/-- The execution modes of the orchestration engine. -/
inductive Mode
  | startup
  | creative
  | adaptive
  | enterprise
deriving DecidableEq

/-- Modelled from the spec: the bucket boundaries of the complexity-score
mapping (`score < 0.3 → startup`, `0.3–0.45 → creative`,
`0.45–0.7 → adaptive`, `> 0.7 → enterprise`); the engine itself is absent
from the source tree. -/
def bucketBoundaries : List Rat := [3/10, 9/20, 7/10]

/-- Modelled from the spec: the bucket mapping of a complexity score. -/
def bucketMode (score : Rat) : Mode :=
  if score < 3/10 then Mode.startup
  else if score ≤ 9/20 then Mode.creative
  else if score ≤ 7/10 then Mode.adaptive
  else Mode.enterprise

/-- Modelled from the spec: a score within ±0.03 of a bucket boundary is
ambiguous. -/
def nearBoundary (score : Rat) : Bool :=
  bucketBoundaries.any (fun b => |score - b| ≤ 3/100)

/-- Modelled from the spec: mode resolution order — (1) an explicit
user-declared mode always wins; (2) otherwise the bucket mapping applies;
(3) a score within ±0.03 of a bucket boundary resolves to `adaptive`. -/
def determineMode (declared : Option Mode) (score : Rat) : Mode :=
  match declared with
  | some m => m
  | none => if nearBoundary score then Mode.adaptive else bucketMode score

/-! ## Cross-Project Pattern Store (spec §4.5) -/

/-- Modelled from the spec: a learned outcome statistic
(`fingerprint → {success_rate, sample_count}`); timestamps and consent
flags do not affect the claimed arithmetic and are omitted. -/
structure PatternRecord where
  success_rate : Rat
  sample_count : Nat

/-- Modelled from the spec: the default EWMA smoothing factor α = 0.3. -/
def defaultAlpha : Rat := 3/10

/-- Modelled from the spec: `observe(fingerprint, outcome)` — a first
observation sets `success_rate = outcome` with `sample_count = 1`; each
later observation applies
`success_rate ← success_rate*(1-α) + outcome*α` and increments
`sample_count`. -/
def observe (r : Option PatternRecord) (outcome : Rat) : PatternRecord :=
  match r with
  | none => { success_rate := outcome, sample_count := 1 }
  | some rec =>
    { success_rate := rec.success_rate * (1 - defaultAlpha) + outcome * defaultAlpha
      sample_count := rec.sample_count + 1 }

/-! ## Validation Consensus Engine (spec §4.4) -/

/-- Modelled from the spec: one configured validation signal of a request —
its weight under the mode's weight profile, whether it is required, and
its producer's score (`none` when the producer is missing or timed out). -/
structure SignalSpec where
  weight : Rat
  required : Bool
  score : Option Rat

/-- Modelled from the spec: the aggregated decision returned to the
caller; `aggregate_score = none` reports the aggregate as unavailable. -/
structure ValidationResult where
  aggregate_score : Option Rat
  gate_passed : Bool

/-- The `(weight, score)` pairs of the signals that responded. -/
def respondedScores (sigs : List SignalSpec) : List (Rat × Rat) :=
  sigs.filterMap (fun s => s.score.map (fun x => (s.weight, x)))

/-- Whether any signal is missing or timed out. -/
def anyMissing (sigs : List SignalSpec) : Bool :=
  sigs.any (fun s => s.score.isNone)

/-- Whether any required signal is missing or timed out. -/
def anyRequiredMissing (sigs : List SignalSpec) : Bool :=
  sigs.any (fun s => s.required && s.score.isNone)

/-- Modelled from the spec: the weighted average
`Σ(weight_s * score_s) / Σ(weight_s)` over the signals that responded. -/
def weightedAggregate (resp : List (Rat × Rat)) : Rat :=
  ((resp.map (fun p => p.1 * p.2)).sum) / ((resp.map Prod.fst).sum)

/-- Modelled from the spec: the floor invariant — if any responded signal
scores below the floor, the aggregate is capped at that signal's score
(at the lowest such score when several fall below the floor). -/
def floorCap (floorValue : Rat) (resp : List (Rat × Rat)) (a : Rat) : Rat :=
  (resp.filter (fun p => p.2 < floorValue)).foldl (fun acc p => min acc p.2) a

/-- Modelled from the spec: the aggregate of a fail-open validation — the
weighted average over responded signals, capped by the floor invariant,
with the fixed penalty subtracted when a signal is missing (the result
clamped to 0, keeping the spec's invariant `aggregate_score ∈ [0,1]`). -/
def validateAggregate (floorValue penalty : Rat) (sigs : List SignalSpec) : Rat :=
  let resp := respondedScores sigs
  let a1 := floorCap floorValue resp (weightedAggregate resp)
  if anyMissing sigs then max 0 (a1 - penalty) else a1

/-- Modelled from the spec: the Validation Consensus Engine.  Enterprise
mode is fail-closed: a missing required signal rejects the gate and
reports the aggregate as unavailable.  Otherwise the aggregate is
computed over responded signals and the gate passes exactly when it
reaches the threshold. -/
def validate (mode : Mode) (threshold floorValue penalty : Rat)
    (sigs : List SignalSpec) : ValidationResult :=
  if mode = Mode.enterprise ∧ anyRequiredMissing sigs then
    { aggregate_score := none, gate_passed := false }
  else
    let a := validateAggregate floorValue penalty sigs
    { aggregate_score := some a, gate_passed := decide (threshold ≤ a) }

/-- Modelled from the spec: the default gate threshold 0.92 for
business-critical operations. -/
def defaultThreshold : Rat := 92/100

/-- Modelled from the spec: the default floor 0.5. -/
def defaultFloor : Rat := 1/2

/-- Modelled from the spec: the fixed fail-open penalty 0.05. -/
def defaultPenalty : Rat := 5/100

/-! ## Wizard navigation lemmas -/

/-- A non-`prev` wizard operation never decreases the step. -/
lemma applyOp_le_of_ne_prev (op : WizardOp) (s : Int) (h : op ≠ WizardOp.prev) :
    s ≤ applyOp op s := by
  cases op with
  | next =>
    simp only [applyOp, handleNext]
    split <;> omega
  | prev => exact absurd rfl h
  | submit => exact le_refl s

/-- A sequence of wizard operations without `prev` never decreases the
step. -/
lemma applyOps_le_of_not_mem_prev (ops : List WizardOp) (s : Int)
    (h : WizardOp.prev ∉ ops) : s ≤ applyOps ops s := by
  induction ops generalizing s with
  | nil => exact le_refl s
  | cons op rest ih =>
    have hop : op ≠ WizardOp.prev := fun he => h (he ▸ List.mem_cons_self op rest)
    have hrest : WizardOp.prev ∉ rest := fun hm => h (List.mem_cons_of_mem op hm)
    calc s ≤ applyOp op s := applyOp_le_of_ne_prev op s hop
    _ ≤ applyOps rest (applyOp op s) := ih (applyOp op s) hrest
    _ = applyOps (op :: rest) s := rfl

/-- One wizard operation keeps the step inside `[0, 4]`. -/
lemma applyOp_bounds (op : WizardOp) (s : Int) (h0 : 0 ≤ s) (h4 : s ≤ 4) :
    0 ≤ applyOp op s ∧ applyOp op s ≤ 4 := by
  cases op <;>
    simp only [applyOp, handleNext, handlePrevious, wizardStepsLength] <;>
    first
      | (split <;> omega)
      | omega

/-- Any sequence of wizard operations keeps the step inside `[0, 4]`. -/
lemma applyOps_bounds (ops : List WizardOp) (s : Int) (h0 : 0 ≤ s) (h4 : s ≤ 4) :
    0 ≤ applyOps ops s ∧ applyOps ops s ≤ 4 := by
  induction ops generalizing s with
  | nil => exact ⟨h0, h4⟩
  | cons op rest ih =>
    have h := applyOp_bounds op s h0 h4
    exact ih (applyOp op s) h.1 h.2

/-- C1: For every session and every sequence of non-forced operations, the
session's phase/step index never moves backward: among the wizard's
operations, only the explicit `handlePrevious` back-navigation ever
decreases `currentStep`, and any operation sequence avoiding it is
monotone non-decreasing. -/
theorem claim_C1_no_unforced_backward :
    (∀ (ops : List WizardOp) (s : Int), WizardOp.prev ∉ ops → s ≤ applyOps ops s) ∧
    (∀ (op : WizardOp) (s : Int), applyOp op s < s → op = WizardOp.prev) := by
  refine ⟨applyOps_le_of_not_mem_prev, ?_⟩
  intro op s h
  by_contra hne
  exact absurd (applyOp_le_of_ne_prev op s hne) (not_le.mpr h)

/-- Witness for C1 at a concrete operation sequence. -/
theorem claim_C1_witness :
    WizardOp.prev ∉ [WizardOp.next, WizardOp.next, WizardOp.submit] ∧
    (0 : Int) ≤ applyOps [WizardOp.next, WizardOp.next, WizardOp.submit] 0 :=
  ⟨by decide,
    claim_C1_no_unforced_backward.1 [WizardOp.next, WizardOp.next, WizardOp.submit] 0
      (by decide)⟩

/-- C9: starting from step 0, every sequence of `handleNext` /
`handlePrevious` navigation actions keeps `currentStep` within
`[0, wizardSteps.length - 1] = [0, 4]`. -/
theorem claim_C9_step_bounds (ops : List WizardOp) :
    0 ≤ applyOps ops 0 ∧ applyOps ops 0 ≤ wizardStepsLength - 1 :=
  applyOps_bounds ops 0 (le_refl 0) (by norm_num)

/-- C7: `markStepCompleted` is idempotent under its key: marking the same
step twice is the same as marking it once, and starting from a state that
does not yet contain the step, two calls leave exactly one copy of it in
`completedSteps`. -/
theorem claim_C7_idempotent_step_completion :
    (∀ (s : ProjectState) (step : String),
      markStepCompleted (markStepCompleted s step) step = markStepCompleted s step) ∧
    (∀ (s : ProjectState) (step : String), step ∉ s.completedSteps →
      ((markStepCompleted (markStepCompleted s step) step).completedSteps).count step = 1) := by
  have hmem : ∀ (l : List String) (step : String),
      step ∈ (if step ∈ l then l else l ++ [step]) := by
    intro l step
    split
    · assumption
    · simp
  refine ⟨?_, ?_⟩
  · intro s step
    simp only [markStepCompleted]
    rw [if_pos (hmem s.completedSteps step)]
  · intro s step hnot
    simp only [markStepCompleted]
    rw [if_pos (hmem s.completedSteps step), if_neg hnot, List.count_append,
      List.count_eq_zero.mpr hnot]
    simp

/-- Witness for C7 at the initial state. -/
theorem claim_C7_witness :
    "wizard" ∉ initialState.completedSteps ∧
    ((markStepCompleted (markStepCompleted initialState "wizard") "wizard").completedSteps).count
      "wizard" = 1 :=
  ⟨by simp [initialState], claim_C7_idempotent_step_completion.2 initialState "wizard"
    (by simp [initialState])⟩

/-- C10: `updateProject` is a frame-respecting partial update: the
non-project state fields are unchanged, and every project field absent
from the update object keeps its previous value. -/
theorem claim_C10_update_frame (u : ProjectUpdate) (s : ProjectState) :
    (updateProject u s).currentStep = s.currentStep ∧
    (updateProject u s).completedSteps = s.completedSteps ∧
    (updateProject u s).isGenerating = s.isGenerating ∧
    (updateProject u s).generationProgress = s.generationProgress ∧
    (u.name = none → (updateProject u s).project.name = s.project.name) ∧
    (u.description = none → (updateProject u s).project.description = s.project.description) ∧
    (u.projectType = none → (updateProject u s).project.projectType = s.project.projectType) ∧
    (u.techStack = none → (updateProject u s).project.techStack = s.project.techStack) ∧
    (u.features = none → (updateProject u s).project.features = s.project.features) ∧
    (u.customFeatures = none →
      (updateProject u s).project.customFeatures = s.project.customFeatures) ∧
    (u.customRequirements = none →
      (updateProject u s).project.customRequirements = s.project.customRequirements) ∧
    (u.designPreferences = none →
      (updateProject u s).project.designPreferences = s.project.designPreferences) ∧
    (u.performanceSettings = none →
      (updateProject u s).project.performanceSettings = s.project.performanceSettings) ∧
    (u.files = none → (updateProject u s).project.files = s.project.files) := by
  refine ⟨rfl, rfl, rfl, rfl, ?_, ?_, ?_, ?_, ?_, ?_, ?_, ?_, ?_, ?_⟩ <;>
    (intro h; simp [updateProject, spreadProject, h])

/-- Witness for C10 at the empty update and the initial state. -/
theorem claim_C10_witness :
    ({} : ProjectUpdate).name = none ∧
    (updateProject {} initialState).currentStep = initialState.currentStep ∧
    (updateProject {} initialState).project.name = initialState.project.name :=
  ⟨rfl, (claim_C10_update_frame {} initialState).1,
    (claim_C10_update_frame {} initialState).2.2.2.2.1 rfl⟩

/-! ## Persistence round-trip lemmas -/

/-- Decoding inverts string-list encoding. -/
lemma decodeStrList_encodeStrList (l : List String) :
    decodeStrList (encodeStrList l) = some l := by
  simp only [encodeStrList, decodeStrList]
  induction l with
  | nil => rfl
  | cons x xs ih =>
    rw [List.map_cons, List.foldr_cons, ih]

/-- Decoding inverts string-map encoding. -/
lemma decodeStrMap_encodeStrMap (l : List (String × String)) :
    decodeStrMap (encodeStrMap l) = some l := by
  simp only [encodeStrMap, decodeStrMap]
  induction l with
  | nil => rfl
  | cons kv kvs ih =>
    rw [List.map_cons, List.foldr_cons, ih]

/-- Decoding inverts the encoding of one project file. -/
lemma decodeFile_encodeFile (f : ProjectFile) :
    decodeFile (encodeFile f) = some f := rfl

/-- Decoding inverts file-list encoding. -/
lemma decodeFiles_encodeFiles (fs : List ProjectFile) :
    decodeFiles (encodeFiles fs) = some fs := by
  simp only [encodeFiles, decodeFiles]
  induction fs with
  | nil => rfl
  | cons f rest ih =>
    rw [List.map_cons, List.foldr_cons, ih, decodeFile_encodeFile]

set_option maxHeartbeats 1000000 in
/-- Decoding inverts the encoding of the `project` record. -/
lemma decodeProject_encodeProject (p : Project) :
    decodeProject (encodeProject p) = some p := by
  simp only [encodeProject, decodeProject, decodeStrMap_encodeStrMap,
    decodeStrList_encodeStrList, decodeJsonMap, decodeFiles_encodeFiles]

/-- Decoding inverts the encoding of the persisted projection. -/
lemma decodePersisted_encodePersisted (p : PersistedState) :
    decodePersisted (encodePersisted p) = some p := by
  simp only [encodePersisted, decodePersisted, decodeProject_encodeProject,
    decodeStrList_encodeStrList]

/-- C8: serializing the persisted projection of a store state and
deserializing it succeeds and reproduces it exactly, and rehydrating the
decoded projection yields a state whose memory projection (`project` and
`completedSteps`) is deep-equal to the original state's. -/
theorem claim_C8_checkpoint_roundtrip (s : ProjectState) :
    decodePersisted (encodePersisted (toPersisted s)) = some (toPersisted s) ∧
    (decodePersisted (encodePersisted (toPersisted s))).map
      (fun p => memoryProjection (restoreState p)) = some (memoryProjection s) := by
  refine ⟨decodePersisted_encodePersisted (toPersisted s), ?_⟩
  rw [decodePersisted_encodePersisted (toPersisted s)]
  rfl

/-! ## Pattern Store EWMA (claim C5) -/

/-- C5: `observe` initializes `success_rate` to the outcome on a first
observation, otherwise applies the EWMA update
`success_rate*(1-α) + outcome*α` with α = 0.3 and increments
`sample_count`; starting from `success_rate = 0.5`, three observations of
outcome 1.0 give 0.65, 0.755 and 0.8285, which exceeds 0.8. -/
theorem claim_C5_ewma_update :
    (∀ o : Rat, observe none o = { success_rate := o, sample_count := 1 }) ∧
    (∀ (r : PatternRecord) (o : Rat),
      observe (some r) o =
        { success_rate := r.success_rate * (1 - 3/10) + o * (3/10)
          sample_count := r.sample_count + 1 }) ∧
    observe (some { success_rate := 1/2, sample_count := 1 }) 1 =
      { success_rate := 13/20, sample_count := 2 } ∧
    observe (some { success_rate := 13/20, sample_count := 2 }) 1 =
      { success_rate := 151/200, sample_count := 3 } ∧
    observe (some { success_rate := 151/200, sample_count := 3 }) 1 =
      { success_rate := 8285/10000, sample_count := 4 } ∧
    (4/5 : Rat) < 8285/10000 := by
  refine ⟨fun o => rfl, fun r o => rfl, ?_, ?_, ?_, by norm_num⟩ <;>
    (simp only [observe, defaultAlpha, PatternRecord.mk.injEq]; norm_num)

/-! ## Mode determination (claim C6) -/

/-- C6: mode resolution — an explicit user-declared mode always wins; a
complexity score within ±0.03 of a bucket boundary resolves to
`adaptive`; concretely, a score of 0.47 resolves to `adaptive` (being
within ±0.03 of the 0.45 boundary), not `creative`. -/
theorem claim_C6_mode_resolution :
    (∀ (m : Mode) (score : Rat), determineMode (some m) score = m) ∧
    (∀ (score b : Rat), b ∈ bucketBoundaries → |score - b| ≤ 3/100 →
      determineMode none score = Mode.adaptive) ∧
    determineMode none (47/100) = Mode.adaptive ∧
    determineMode none (47/100) ≠ Mode.creative := by
  have hnear : ∀ (score b : Rat), b ∈ bucketBoundaries → |score - b| ≤ 3/100 →
      nearBoundary score = true := by
    intro score b hb h
    unfold nearBoundary
    rw [List.any_eq_true]
    exact ⟨b, hb, decide_eq_true h⟩
  refine ⟨fun m score => rfl, ?_, ?_, ?_⟩
  · intro score b hb h
    simp [determineMode, hnear score b hb h]
  · have h47 : nearBoundary (47/100) = true := by
      refine hnear (47/100) (9/20) (by simp [bucketBoundaries]) ?_
      rw [abs_le]
      norm_num
    simp [determineMode, h47]
  · have h47 : nearBoundary (47/100) = true := by
      refine hnear (47/100) (9/20) (by simp [bucketBoundaries]) ?_
      rw [abs_le]
      norm_num
    simp [determineMode, h47]

/-- Witness for C6 at a concrete boundary-adjacent score. -/
theorem claim_C6_witness :
    ((9/20 : Rat) ∈ bucketBoundaries ∧ |(42/100 : Rat) - 9/20| ≤ 3/100) ∧
    determineMode none (42/100) = Mode.adaptive :=
  ⟨⟨by simp [bucketBoundaries], by rw [abs_le]; norm_num⟩,
    claim_C6_mode_resolution.2.1 (42/100) (9/20) (by simp [bucketBoundaries])
      (by rw [abs_le]; norm_num)⟩

/-! ## Validation Consensus Engine lemmas -/

/-- A fold of `min` over second components never exceeds its initial
value. -/
lemma foldl_min_le_init (l : List (Rat × Rat)) (a : Rat) :
    l.foldl (fun acc p => min acc p.2) a ≤ a := by
  induction l generalizing a with
  | nil => exact le_refl a
  | cons p rest ih =>
    simp only [List.foldl_cons]
    exact le_trans (ih (min a p.2)) (min_le_left a p.2)

/-- A fold of `min` over second components never exceeds any member's
second component. -/
lemma foldl_min_le_mem (l : List (Rat × Rat)) (x : Rat × Rat) :
    ∀ a : Rat, x ∈ l → l.foldl (fun acc p => min acc p.2) a ≤ x.2 := by
  induction l with
  | nil => intro a hx; cases hx
  | cons p rest ih =>
    intro a hx
    simp only [List.foldl_cons]
    rcases List.mem_cons.mp hx with rfl | h
    · exact le_trans (foldl_min_le_init rest (min a x.2)) (min_le_right a x.2)
    · exact ih (min a p.2) h

/-- A fold of `min` over nonnegative values from a nonnegative start is
nonnegative. -/
lemma foldl_min_nonneg (l : List (Rat × Rat)) :
    ∀ a : Rat, 0 ≤ a → (∀ p ∈ l, 0 ≤ p.2) →
      0 ≤ l.foldl (fun acc p => min acc p.2) a := by
  induction l with
  | nil => exact fun a ha _ => ha
  | cons p rest ih =>
    intro a ha hl
    simp only [List.foldl_cons]
    exact ih (min a p.2) (le_min ha (hl p (List.mem_cons_self p rest)))
      (fun q hq => hl q (List.mem_cons_of_mem p hq))

/-- The floor cap never exceeds the incoming aggregate. -/
lemma floorCap_le_init (floorValue : Rat) (resp : List (Rat × Rat)) (a : Rat) :
    floorCap floorValue resp a ≤ a :=
  foldl_min_le_init (resp.filter (fun p => p.2 < floorValue)) a

/-- The floor cap is nonnegative when the incoming aggregate and the
responded scores are. -/
lemma floorCap_nonneg (floorValue : Rat) (resp : List (Rat × Rat)) (a : Rat)
    (ha : 0 ≤ a) (hresp : ∀ p ∈ resp, 0 ≤ p.2) :
    0 ≤ floorCap floorValue resp a :=
  foldl_min_nonneg _ a ha (fun p hp => hresp p (List.mem_of_mem_filter hp))

/-- The floor cap is at most any responded score that falls below the
floor. -/
lemma floorCap_le_low (floorValue : Rat) (resp : List (Rat × Rat)) (a : Rat)
    (x : Rat × Rat) (hx : x ∈ resp) (hlow : x.2 < floorValue) :
    floorCap floorValue resp a ≤ x.2 :=
  foldl_min_le_mem _ x a (by rw [List.mem_filter]; exact ⟨hx, decide_eq_true hlow⟩)

/-- Every responded `(weight, score)` pair comes from a signal of the
request whose score responded. -/
lemma respondedScores_mem (sigs : List SignalSpec) (p : Rat × Rat)
    (hp : p ∈ respondedScores sigs) :
    ∃ s ∈ sigs, s.weight = p.1 ∧ s.score = some p.2 := by
  unfold respondedScores at hp
  rcases List.mem_filterMap.mp hp with ⟨s, hs, hf⟩
  cases hsc : s.score with
  | none => rw [hsc] at hf; cases hf
  | some x =>
    rw [hsc] at hf
    simp only [Option.map_some', Option.some.injEq] at hf
    subst hf
    exact ⟨s, hs, rfl, hsc⟩

/-- The weighted average of responded scores is nonnegative when weights
are positive and scores nonnegative. -/
lemma weightedAggregate_nonneg (resp : List (Rat × Rat))
    (hw : ∀ p ∈ resp, 0 < p.1) (hs : ∀ p ∈ resp, 0 ≤ p.2) :
    0 ≤ weightedAggregate resp := by
  unfold weightedAggregate
  apply div_nonneg
  · apply List.sum_nonneg
    intro x hx
    rcases List.mem_map.mp hx with ⟨p, hp, rfl⟩
    exact mul_nonneg (le_of_lt (hw p hp)) (hs p hp)
  · apply List.sum_nonneg
    intro x hx
    rcases List.mem_map.mp hx with ⟨p, hp, rfl⟩
    exact le_of_lt (hw p hp)

/-- The weighted average of responded scores is at most 1 when weights are
positive and scores at most 1. -/
lemma weightedAggregate_le_one (resp : List (Rat × Rat))
    (hw : ∀ p ∈ resp, 0 < p.1) (hs : ∀ p ∈ resp, p.2 ≤ 1) :
    weightedAggregate resp ≤ 1 := by
  unfold weightedAggregate
  rcases List.eq_nil_or_concat resp with hnil | ⟨_, _, hne⟩
  · subst hnil
    norm_num
  · have hne' : resp ≠ [] := by
      rw [hne]
      exact fun h => by simpa using congrArg List.length h
    have hpos : 0 < (resp.map Prod.fst).sum := by
      apply List.sum_pos
      · intro x hx
        rcases List.mem_map.mp hx with ⟨p, hp, rfl⟩
        exact hw p hp
      · simpa using hne'
    rw [div_le_one hpos]
    apply List.sum_le_sum
    intro p hp
    calc p.1 * p.2 ≤ p.1 * 1 := mul_le_mul_of_nonneg_left (hs p hp) (le_of_lt (hw p hp))
    _ = p.1 := mul_one p.1

/-- The fail-open aggregate lies in `[0, 1]` whenever weights are
positive, responded scores lie in `[0, 1]` and the penalty is
nonnegative. -/
lemma validateAggregate_bounds (floorValue penalty : Rat) (sigs : List SignalSpec)
    (hw : ∀ s ∈ sigs, 0 < s.weight)
    (hs : ∀ s ∈ sigs, ∀ x, s.score = some x → 0 ≤ x ∧ x ≤ 1)
    (hpen : 0 ≤ penalty) :
    0 ≤ validateAggregate floorValue penalty sigs ∧
      validateAggregate floorValue penalty sigs ≤ 1 := by
  have hw' : ∀ p ∈ respondedScores sigs, 0 < p.1 := by
    intro p hp
    rcases respondedScores_mem sigs p hp with ⟨s, hsm, hws, _⟩
    exact hws ▸ hw s hsm
  have hs' : ∀ p ∈ respondedScores sigs, 0 ≤ p.2 ∧ p.2 ≤ 1 := by
    intro p hp
    rcases respondedScores_mem sigs p hp with ⟨s, hsm, _, hsc⟩
    exact hs s hsm p.2 hsc
  have h0 : 0 ≤ weightedAggregate (respondedScores sigs) :=
    weightedAggregate_nonneg _ hw' (fun p hp => (hs' p hp).1)
  have h1 : weightedAggregate (respondedScores sigs) ≤ 1 :=
    weightedAggregate_le_one _ hw' (fun p hp => (hs' p hp).2)
  have hc0 : 0 ≤ floorCap floorValue (respondedScores sigs)
      (weightedAggregate (respondedScores sigs)) :=
    floorCap_nonneg floorValue _ _ h0 (fun p hp => (hs' p hp).1)
  have hc1 : floorCap floorValue (respondedScores sigs)
      (weightedAggregate (respondedScores sigs)) ≤ 1 :=
    le_trans (floorCap_le_init floorValue _ _) h1
  unfold validateAggregate
  split
  · constructor
    · exact le_max_left 0 _
    · exact max_le (by norm_num) (le_trans (by linarith) hc1)
  · exact ⟨hc0, hc1⟩

/-- The fail-open aggregate is capped at any responded score below the
floor. -/
lemma validateAggregate_le_low (floorValue penalty : Rat) (sigs : List SignalSpec)
    (w x : Rat) (hmem : (w, x) ∈ respondedScores sigs) (hlow : x < floorValue)
    (hx : 0 ≤ x) (hpen : 0 ≤ penalty) :
    validateAggregate floorValue penalty sigs ≤ x := by
  have hcap : floorCap floorValue (respondedScores sigs)
      (weightedAggregate (respondedScores sigs)) ≤ x :=
    floorCap_le_low floorValue _ _ (w, x) hmem hlow
  unfold validateAggregate
  split
  · exact max_le hx (by linarith)
  · exact hcap

/-- The fail-closed branch of `validate`. -/
lemma validate_closed (mode : Mode) (threshold floorValue penalty : Rat)
    (sigs : List SignalSpec) (h : mode = Mode.enterprise ∧ anyRequiredMissing sigs) :
    validate mode threshold floorValue penalty sigs =
      { aggregate_score := none, gate_passed := false } := by
  unfold validate
  rw [if_pos h]

/-- The fail-open branch of `validate`. -/
lemma validate_open (mode : Mode) (threshold floorValue penalty : Rat)
    (sigs : List SignalSpec) (h : ¬(mode = Mode.enterprise ∧ anyRequiredMissing sigs)) :
    validate mode threshold floorValue penalty sigs =
      { aggregate_score := some (validateAggregate floorValue penalty sigs)
        gate_passed := decide (threshold ≤ validateAggregate floorValue penalty sigs) } := by
  unfold validate
  rw [if_neg h]

/-- C2: for every ValidationResult whose aggregate is reported, the
aggregate lies in `[0, 1]` and the gate passes exactly when the aggregate
reaches the threshold in effect; a result with an unavailable aggregate
has a rejected gate.  Hypotheses: the mode's weight profile is positive,
every responded producer's score lies in `[0, 1]` (the producer contract
of the spec), and the fail-open penalty is nonnegative. -/
theorem claim_C2_result_invariant (mode : Mode) (threshold floorValue penalty : Rat)
    (sigs : List SignalSpec)
    (hw : ∀ s ∈ sigs, 0 < s.weight)
    (hs : ∀ s ∈ sigs, ∀ x, s.score = some x → 0 ≤ x ∧ x ≤ 1)
    (hpen : 0 ≤ penalty) :
    (∀ a, (validate mode threshold floorValue penalty sigs).aggregate_score = some a →
      (0 ≤ a ∧ a ≤ 1) ∧
      ((validate mode threshold floorValue penalty sigs).gate_passed = true ↔ threshold ≤ a)) ∧
    ((validate mode threshold floorValue penalty sigs).aggregate_score = none →
      (validate mode threshold floorValue penalty sigs).gate_passed = false) := by
  by_cases hfc : mode = Mode.enterprise ∧ anyRequiredMissing sigs
  · constructor
    · intro a ha
      rw [validate_closed mode threshold floorValue penalty sigs hfc] at ha
      simp at ha
    · intro _
      rw [validate_closed mode threshold floorValue penalty sigs hfc]
  · constructor
    · intro a ha
      rw [validate_open mode threshold floorValue penalty sigs hfc] at ha
      replace ha : validateAggregate floorValue penalty sigs = a := by simpa using ha
      subst ha
      rw [validate_open mode threshold floorValue penalty sigs hfc]
      refine ⟨validateAggregate_bounds floorValue penalty sigs hw hs hpen, ?_⟩
      simp
    · intro ha
      rw [validate_open mode threshold floorValue penalty sigs hfc] at ha
      simp at ha

/-- Witness for C2 at a single fully-responded signal. -/
theorem claim_C2_witness :
    ((0 : Rat) ≤ 1 ∧ (1 : Rat) ≤ 1) ∧
    ((validate Mode.adaptive (92/100) (1/2) (5/100)
        [{ weight := 1, required := true, score := some 1 }]).gate_passed = true ↔
      (92/100 : Rat) ≤ 1) :=
  (claim_C2_result_invariant Mode.adaptive (92/100) (1/2) (5/100)
    [{ weight := 1, required := true, score := some 1 }]
    (by intro s hs; simp at hs; subst hs; norm_num)
    (by intro s hs x hx; simp at hs; subst hs; simp at hx; subst hx; norm_num)
    (by norm_num)).1 1
    (by norm_num [validate, validateAggregate, respondedScores, weightedAggregate,
      floorCap, anyMissing, anyRequiredMissing, List.filterMap, List.filter])

/-- C3: the floor invariant — whenever a responded signal scores below the
floor, the reported aggregate is capped at (at most) that signal's score;
concretely, for equal-weight signals `[0.98, 0.97, 0.40, 0.96]` with
floor 0.5 the aggregate is 0.40 and the gate fails at threshold 0.92. -/
theorem claim_C3_floor_invariant :
    (∀ (mode : Mode) (threshold floorValue penalty : Rat) (sigs : List SignalSpec)
      (w x a : Rat), (w, x) ∈ respondedScores sigs → x < floorValue → 0 ≤ x →
      0 ≤ penalty →
      (validate mode threshold floorValue penalty sigs).aggregate_score = some a →
      a ≤ x) ∧
    validate Mode.adaptive defaultThreshold defaultFloor defaultPenalty
      [{ weight := 1, required := true, score := some (98/100) },
       { weight := 1, required := true, score := some (97/100) },
       { weight := 1, required := true, score := some (40/100) },
       { weight := 1, required := true, score := some (96/100) }] =
      { aggregate_score := some (40/100), gate_passed := false } := by
  constructor
  · intro mode threshold floorValue penalty sigs w x a hmem hlow hx hpen ha
    by_cases hfc : mode = Mode.enterprise ∧ anyRequiredMissing sigs
    · rw [validate_closed mode threshold floorValue penalty sigs hfc] at ha
      simp at ha
    · rw [validate_open mode threshold floorValue penalty sigs hfc] at ha
      replace ha : validateAggregate floorValue penalty sigs = a := by simpa using ha
      subst ha
      exact validateAggregate_le_low floorValue penalty sigs w x hmem hlow hx hpen
  · norm_num [validate, validateAggregate, respondedScores, weightedAggregate, floorCap,
      anyMissing, anyRequiredMissing, defaultThreshold, defaultFloor, defaultPenalty,
      List.filterMap, List.filter]

/-- Witness for C3 at the concrete floor scenario. -/
theorem claim_C3_witness :
    (((1 : Rat), (40/100 : Rat)) ∈ respondedScores
        [{ weight := 1, required := true, score := some (98/100) },
         { weight := 1, required := true, score := some (97/100) },
         { weight := 1, required := true, score := some (40/100) },
         { weight := 1, required := true, score := some (96/100) }] ∧
      (40/100 : Rat) < defaultFloor ∧ (0 : Rat) ≤ 40/100 ∧ (0 : Rat) ≤ defaultPenalty) ∧
    (40/100 : Rat) ≤ 40/100 :=
  ⟨⟨by simp [respondedScores], by norm_num [defaultFloor], by norm_num,
      by norm_num [defaultPenalty]⟩,
    claim_C3_floor_invariant.1 Mode.adaptive defaultThreshold defaultFloor defaultPenalty
      [{ weight := 1, required := true, score := some (98/100) },
       { weight := 1, required := true, score := some (97/100) },
       { weight := 1, required := true, score := some (40/100) },
       { weight := 1, required := true, score := some (96/100) }]
      1 (40/100) (40/100) (by simp [respondedScores]) (by norm_num [defaultFloor])
      (by norm_num) (by norm_num [defaultPenalty])
      (by norm_num [validate, validateAggregate, respondedScores, weightedAggregate,
        floorCap, anyMissing, anyRequiredMissing, defaultThreshold, defaultFloor,
        defaultPenalty, List.filterMap, List.filter])⟩

/-- C4: enterprise mode is fail-closed — any missing or timed-out required
signal rejects the gate and reports the aggregate as unavailable,
regardless of the responded scores; concretely for signals
`[0.97, 0.96, missing, 0.95]`. -/
theorem claim_C4_enterprise_fail_closed :
    (∀ (threshold floorValue penalty : Rat) (sigs : List SignalSpec),
      anyRequiredMissing sigs = true →
      validate Mode.enterprise threshold floorValue penalty sigs =
        { aggregate_score := none, gate_passed := false }) ∧
    validate Mode.enterprise defaultThreshold defaultFloor defaultPenalty
      [{ weight := 1, required := true, score := some (97/100) },
       { weight := 1, required := true, score := some (96/100) },
       { weight := 1, required := true, score := none },
       { weight := 1, required := true, score := some (95/100) }] =
      { aggregate_score := none, gate_passed := false } := by
  constructor
  · intro threshold floorValue penalty sigs hmiss
    exact validate_closed Mode.enterprise threshold floorValue penalty sigs ⟨rfl, hmiss⟩
  · exact validate_closed Mode.enterprise defaultThreshold defaultFloor defaultPenalty
      [{ weight := 1, required := true, score := some (97/100) },
       { weight := 1, required := true, score := some (96/100) },
       { weight := 1, required := true, score := none },
       { weight := 1, required := true, score := some (95/100) }] ⟨rfl, rfl⟩

/-- Witness for C4 at the concrete enterprise scenario. -/
theorem claim_C4_witness :
    anyRequiredMissing
        [{ weight := 1, required := true, score := some (97/100) },
         { weight := 1, required := true, score := none }] = true ∧
    validate Mode.enterprise defaultThreshold defaultFloor defaultPenalty
        [{ weight := 1, required := true, score := some (97/100) },
         { weight := 1, required := true, score := none }] =
      { aggregate_score := none, gate_passed := false } :=
  ⟨rfl,
    claim_C4_enterprise_fail_closed.1 defaultThreshold defaultFloor defaultPenalty
      [{ weight := 1, required := true, score := some (97/100) },
       { weight := 1, required := true, score := none }] rfl⟩

end AidGenesis
